import Mathlib

set_option maxHeartbeats 1000000

namespace MCP

/-- Strings of the JavaScript source are modelled as lists of characters. -/
abbrev Str := List Char

/-- JSON values, as produced by `JSON.parse` (numbers modelled as integers). -/
inductive Json where
  | null : Json
  | bool (b : Bool) : Json
  | num (n : Int) : Json
  | str (s : Str) : Json
  | arr (xs : List Json) : Json
  | obj (fields : List (Str × Json)) : Json

mutual

/-- Boolean equality on JSON values. -/
def Json.beq : Json → Json → Bool
  | .null, .null => true
  | .bool b, .bool b' => b == b'
  | .num n, .num n' => n == n'
  | .str s, .str s' => s == s'
  | .arr xs, .arr ys => Json.beqList xs ys
  | .obj fs, .obj gs => Json.beqFields fs gs
  | _, _ => false

def Json.beqList : List Json → List Json → Bool
  | [], [] => true
  | x :: xs, y :: ys => Json.beq x y && Json.beqList xs ys
  | _, _ => false

def Json.beqFields : List (Str × Json) → List (Str × Json) → Bool
  | [], [] => true
  | (k, v) :: fs, (k', v') :: gs => k == k' && Json.beq v v' && Json.beqFields fs gs
  | _, _ => false

end

mutual

def Json.beq_iff : ∀ a b : Json, Json.beq a b = true ↔ a = b
  | .null, b => by cases b <;> simp [Json.beq]
  | .bool x, b => by cases b <;> simp [Json.beq]
  | .num x, b => by cases b <;> simp [Json.beq]
  | .str x, b => by cases b <;> simp [Json.beq]
  | .arr xs, b => by
      cases b <;> simp [Json.beq]
      exact Json.beqList_iff xs _
  | .obj fs, b => by
      cases b <;> simp [Json.beq]
      exact Json.beqFields_iff fs _

def Json.beqList_iff : ∀ xs ys : List Json, Json.beqList xs ys = true ↔ xs = ys
  | [], ys => by cases ys <;> simp [Json.beqList]
  | x :: xs, ys => by
      cases ys with
      | nil => simp [Json.beqList]
      | cons y ys =>
          simp [Json.beqList, Bool.and_eq_true, Json.beq_iff x y, Json.beqList_iff xs ys]

def Json.beqFields_iff :
    ∀ fs gs : List (Str × Json), Json.beqFields fs gs = true ↔ fs = gs
  | [], gs => by cases gs <;> simp [Json.beqFields]
  | (k, v) :: fs, gs => by
      cases gs with
      | nil => simp [Json.beqFields]
      | cons g gs =>
          obtain ⟨k', v'⟩ := g
          simp [Json.beqFields, Bool.and_eq_true, Json.beq_iff v v',
            Json.beqFields_iff fs gs, and_assoc]

end

instance : DecidableEq Json := fun a b =>
  decidable_of_iff (Json.beq a b = true) (Json.beq_iff a b)

/-- JavaScript truthiness of a JSON value. -/
def truthy : Json → Bool
  | .null => false
  | .bool b => b
  | .num n => n != 0
  | .str s => s != []
  | .arr _ => true
  | .obj _ => true

/-- First-match field lookup in a decoded JSON object. -/
def lookupField : List (Str × Json) → Str → Option Json
  | [], _ => none
  | (k', v) :: rest, k => if k' = k then some v else lookupField rest k

/-- JavaScript property access `j[k]`: `none` models `undefined`
(absent field, or access on a non-object value). -/
def jsGet : Json → Str → Option Json
  | .obj fs, k => lookupField fs k
  | _, _ => none

/-- Truthiness of a possibly-undefined value (`undefined` is falsy). -/
def truthyOpt : Option Json → Bool
  | some j => truthy j
  | none => false

/-- JavaScript whitespace for the purposes of `String.prototype.trim`. -/
def isWs (c : Char) : Bool :=
  c = ' ' || c = '\t' || c = '\n' || c = '\r'

/-- Model of `line.trim()`. -/
def jsTrim (s : Str) : Str :=
  ((s.dropWhile isWs).reverse.dropWhile isWs).reverse

/-- String escaping used by `JSON.stringify` (quote, backslash, newline). -/
def escChar (c : Char) : Str :=
  if c = '"' then ['\\', '"']
  else if c = '\\' then ['\\', '\\']
  else if c = '\n' then ['\\', 'n']
  else [c]

def escStr (s : Str) : Str := (s.map escChar).flatten

/-- Comma-separated join. -/
def commaJoin : List Str → Str
  | [] => []
  | [s] => s
  | s :: rest => s ++ ',' :: commaJoin rest

mutual

/-- Model of `JSON.stringify` on decoded JSON values. -/
def stringify : Json → Str
  | .null => "null".toList
  | .bool true => "true".toList
  | .bool false => "false".toList
  | .num n => (toString n).toList
  | .str s => '"' :: escStr s ++ ['"']
  | .arr xs => '[' :: commaJoin (stringifyArr xs) ++ [']']
  | .obj fs => '\x7b' :: commaJoin (stringifyObj fs) ++ ['\x7d']

def stringifyArr : List Json → List Str
  | [] => []
  | x :: xs => stringify x :: stringifyArr xs

def stringifyObj : List (Str × Json) → List Str
  | [] => []
  | (k, v) :: fs => ('"' :: escStr k ++ '"' :: [':'] ++ stringify v) :: stringifyObj fs

end

/-- JavaScript `String(v)` coercion, as applied by the `Error` constructor
to its message argument. -/
def jsToStr : Json → Str
  | .null => "null".toList
  | .bool true => "true".toList
  | .bool false => "false".toList
  | .num n => (toString n).toList
  | .str s => s
  | .arr _ => "[object Array]".toList
  | .obj _ => "[object Object]".toList

def messageKey : Str := "message".toList
def idKey : Str := "id".toList
def errorKey : Str := "error".toList
def resultKey : Str := "result".toList
def methodKey : Str := "method".toList
def jsonrpcKey : Str := "jsonrpc".toList
def paramsKey : Str := "params".toList

/-- `new Error(message.error.message || JSON.stringify(message.error)).message`:
the server-supplied message when it is truthy, else the stringified payload. -/
def errMsgOf (e : Json) : Str :=
  match jsGet e messageKey with
  | some m => if truthy m then jsToStr m else stringify e
  | none => stringify e

/-!  ### Inbound framing (`MCPClient.handleData`)  -/

/-- The newline delimiter. -/
def nlChar : Char := '\n'

/-- Model of JavaScript `s.split('\n')`: always returns a non-empty list;
the chunks between newlines, in order. -/
def splitNl : Str → List Str
  | [] => [[]]
  | c :: cs =>
    let r := splitNl cs
    if c = nlChar then [] :: r else (c :: r.headD []) :: r.tail

/-- All elements of a split except the last (the source's `lines` after
`lines.pop()`). -/
def fronts : List Str → List Str
  | [] => []
  | [_] => []
  | a :: b :: t => a :: fronts (b :: t)

/-- The last element of a split (the source's `lines.pop() || ''`,
the new buffer). -/
def lastPart : List Str → Str
  | [] => []
  | [a] => a
  | _ :: b :: t => lastPart (b :: t)

/-- The loop body of `handleData`: each complete line is skipped when its
trim is empty, otherwise handed to `JSON.parse` (the abstract `parse`);
a parse failure is logged and the line discarded. -/
def parseLines (parse : Str → Option Json) (ls : List Str) : List Json :=
  ls.filterMap (fun l => if jsTrim l = [] then none else parse l)

/-- One `handleData` pass at the framing level: returns the new buffer and
the list of decoded messages dispatched (in order) to `handleMessage`. -/
def handleDataF (parse : Str → Option Json) (buf chunk : Str) : Str × List Json :=
  let parts := splitNl (buf ++ chunk)
  (lastPart parts, parseLines parse (fronts parts))

/-- Feeding a sequence of chunks through successive `handleData` passes,
collecting all dispatched messages. -/
def feed (parse : Str → Option Json) (buf : Str) : List Str → Str × List Json
  | [] => (buf, [])
  | c :: cs =>
    let r := handleDataF parse buf c
    let r2 := feed parse r.1 cs
    (r2.1, r.2 ++ r2.2)

/-!  ### Client state (`MCPClient`)  -/

/-- How a pending call's promise was settled. -/
inductive Outcome where
  | resolved (r : Option Json) : Outcome
  | rejected (msg : Str) : Outcome
deriving DecidableEq

/-- A spawned subprocess handle (`this.process`): its spawn ordinal and
the `killed` flag. -/
structure Proc where
  pid : Nat
  killed : Bool
deriving DecidableEq

/-- An active request-timeout timer: the request id, the method captured by
the timer closure, and the `setTimeout` delay in milliseconds. -/
structure TimerT where
  rid : Nat
  meth : Str
  delayMs : Nat
deriving DecidableEq

/-- How one `connect()` invocation's outer promise settled. -/
inductive ConnectResult where
  | ok : ConnectResult
  | failed (msg : Str) : ConnectResult
deriving DecidableEq

/-- The mutable state of one `MCPClient` instance, plus ghost logs
(`settled`, `writes`, `assigned`, `notes`, `spawns`, `connectResults`)
recording the externally observable history. -/
structure ClientState where
  process : Option Proc
  isConnected : Bool
  requestId : Nat
  pending : List Nat
  buffer : Str
  reconnectAttempts : Nat
  maxReconnectAttempts : Nat
  timers : List TimerT
  hsIds : List Nat
  initTimers : List Nat
  scheduledReconnects : List Nat
  settled : List (Nat × Outcome)
  writes : List Str
  assigned : List Nat
  notes : List Json
  spawns : Nat
  connectResults : List ConnectResult
deriving DecidableEq

/-- The constructor's initial state. -/
def initState : ClientState :=
  { process := none, isConnected := false, requestId := 0, pending := [],
    buffer := [], reconnectAttempts := 0, maxReconnectAttempts := 3,
    timers := [], hsIds := [], initTimers := [], scheduledReconnects := [],
    settled := [], writes := [], assigned := [], notes := [], spawns := 0,
    connectResults := [] }

def settledIds (s : ClientState) : List Nat := s.settled.map Prod.fst

/-- The settlements recorded for a given request id. -/
def settledFor (i : Nat) (s : ClientState) : List (Nat × Outcome) :=
  s.settled.filter (fun x => x.1 = i)

/-- `message.id && this.pendingRequests.has(message.id)`: the pending key
matched by a message — requires a truthy `id` that is a number equal to a
key of the pending map. -/
def pendingLookup (pend : List Nat) (msg : Json) : Option Nat :=
  match jsGet msg idKey with
  | none => none
  | some v =>
    if truthy v then
      match v with
      | .num n => pend.find? (fun k => (k : Int) = n)
      | _ => none
    else none

/-- `MCPClient.handleMessage`: correlate a response to its pending call
(clearing its timer, removing it, and rejecting/resolving), or emit a
notification, or ignore. -/
def handleMessageFn (s : ClientState) (msg : Json) : ClientState :=
  match pendingLookup s.pending msg with
  | some k =>
    if truthyOpt (jsGet msg errorKey) then
      { s with timers := s.timers.filter (fun t => t.rid ≠ k),
               pending := s.pending.filter (fun i => i ≠ k),
               settled := s.settled ++
                 [(k, .rejected (errMsgOf ((jsGet msg errorKey).getD .null)))] }
    else
      { s with timers := s.timers.filter (fun t => t.rid ≠ k),
               pending := s.pending.filter (fun i => i ≠ k),
               settled := s.settled ++ [(k, .resolved (jsGet msg resultKey))] }
  | none =>
    if truthyOpt (jsGet msg methodKey) then { s with notes := s.notes ++ [msg] }
    else s

/-- `MCPClient.handleData`: buffer the chunk, split on newlines, keep the
last fragment as the new buffer, dispatch each parsed complete line. -/
def handleDataFn (parse : Str → Option Json) (s : ClientState) (chunk : Str) :
    ClientState :=
  let r := handleDataF parse s.buffer chunk
  r.2.foldl handleMessageFn { s with buffer := r.1 }

def notRunningMsg : Str := "MCP process not running".toList

/-- The serialized JSON-RPC request line written to the subprocess's stdin. -/
def requestLine (id : Nat) (method : Str) (params : Json) : Str :=
  stringify (.obj [(jsonrpcKey, .str "2.0".toList), (idKey, .num id),
    (methodKey, .str method), (paramsKey, params)]) ++ ['\n']

/-- `MCPClient.sendRequest`: fail fast if the subprocess handle is absent or
killed; otherwise allocate `++this.requestId`, register the pending call and
its 60-second timeout timer, and write the request line. -/
def sendRequestFn (s : ClientState) (method : Str) (params : Json) :
    Except Str Nat × ClientState :=
  match s.process with
  | none => (.error notRunningMsg, s)
  | some p =>
    if p.killed then (.error notRunningMsg, s)
    else
      let id := s.requestId + 1
      (.ok id,
        { s with requestId := id,
                 timers := s.timers ++ [⟨id, method, 60000⟩],
                 pending := s.pending ++ [id],
                 assigned := s.assigned ++ [id],
                 writes := s.writes ++ [requestLine id method params] })

/-- The 60-second timeout timer's callback for request `i` (method `m`):
if the id is still pending, remove it and reject with the timeout error. -/
def timeoutMsg (m : Str) : Str := "Request timeout: ".toList ++ m

def timeoutFn (s : ClientState) (i : Nat) (m : Str) : ClientState :=
  if i ∈ s.pending then
    { s with timers := s.timers.filter (fun t => t.rid ≠ i),
             pending := s.pending.filter (fun k => k ≠ i),
             settled := s.settled ++ [(i, .rejected (timeoutMsg m))] }
  else { s with timers := s.timers.filter (fun t => t.rid ≠ i) }

/-- The `close` handler registered by `connect`: reset to disconnected,
clear the handle, and schedule one 2000 ms reconnect when the attempt
counter is below its maximum (incrementing it). -/
def closeFn (s : ClientState) : ClientState :=
  if s.reconnectAttempts < s.maxReconnectAttempts then
    { s with isConnected := false, process := none,
             reconnectAttempts := s.reconnectAttempts + 1,
             scheduledReconnects := s.scheduledReconnects ++ [2000] }
  else { s with isConnected := false, process := none }

/-- `MCPClient.connect` up to its synchronous effects: a no-op when already
connected, otherwise spawn a fresh subprocess (overwriting the handle) and
schedule the 3000 ms initialize grace timer. -/
def connectFn (s : ClientState) : ClientState :=
  if s.isConnected then s
  else
    { s with process := some ⟨s.spawns + 1, false⟩,
             spawns := s.spawns + 1,
             initTimers := s.initTimers ++ [3000] }

/-- The fired reconnect backoff timer: `this.connect().catch(...)`. -/
def reconnectFn (s : ClientState) : ClientState :=
  connectFn { s with scheduledReconnects := s.scheduledReconnects.tail }

/-- The handshake request's parameters (`initialize`). -/
def initParams : Json :=
  .obj [("protocolVersion".toList, .str "2024-11-05".toList),
        ("capabilities".toList,
          .obj [("roots".toList, .obj [("listChanged".toList, .bool true)]),
                ("sampling".toList, .obj [])]),
        ("clientInfo".toList,
          .obj [("name".toList, .str "Blender MCP HTTP Server".toList),
                ("version".toList, .str "1.0.0".toList)])]

def initMethod : Str := "initialize".toList

/-- The id-less `notifications/initialized` line written after the
handshake result arrives. -/
def initializedNotif : Str :=
  stringify (.obj [(jsonrpcKey, .str "2.0".toList),
    (methodKey, .str "notifications/initialized".toList)]) ++ ['\n']

def typeErrMsg : Str := "TypeError".toList

/-- The fired 3000 ms grace timer: start `initialize` by issuing its
`sendRequest`; a synchronous throw (process gone) rejects `connect`. -/
def initTimerFn (s : ClientState) : ClientState :=
  match sendRequestFn { s with initTimers := s.initTimers.tail }
      initMethod initParams with
  | (.error e, s1) => { s1 with connectResults := s1.connectResults ++ [.failed e] }
  | (.ok id, s1) => { s1 with hsIds := s1.hsIds ++ [id] }

/-- The continuation of `connect`'s initialize callback, run once the
handshake request with id `i` has settled with outcome `o`: a rejection
rejects `connect`; a resolution writes the `initialized` notification and
then evaluates `result.serverInfo` for logging, which throws a `TypeError`
when the result is `null`/absent; only the surviving path sets
`isConnected`, resets the reconnect counter, and resolves `connect`. -/
def initCbFn (s : ClientState) (i : Nat) (o : Outcome) : ClientState :=
  match o with
  | .rejected e =>
    { s with hsIds := s.hsIds.filter (fun j => j ≠ i),
             connectResults := s.connectResults ++ [.failed e] }
  | .resolved r =>
    match s.process with
    | none =>
      { s with hsIds := s.hsIds.filter (fun j => j ≠ i),
               connectResults := s.connectResults ++ [.failed typeErrMsg] }
    | some _ =>
      match r with
      | none =>
        { s with hsIds := s.hsIds.filter (fun j => j ≠ i),
                 writes := s.writes ++ [initializedNotif],
                 connectResults := s.connectResults ++ [.failed typeErrMsg] }
      | some .null =>
        { s with hsIds := s.hsIds.filter (fun j => j ≠ i),
                 writes := s.writes ++ [initializedNotif],
                 connectResults := s.connectResults ++ [.failed typeErrMsg] }
      | some _ =>
        { s with hsIds := s.hsIds.filter (fun j => j ≠ i),
                 writes := s.writes ++ [initializedNotif],
                 isConnected := true, reconnectAttempts := 0,
                 connectResults := s.connectResults ++ [.ok] }

/-- `MCPClient.disconnect`: kill the subprocess, clear the handle, mark
disconnected, and clear the pending map — without settling its promises and
without cancelling their timers. -/
def disconnectFn (s : ClientState) : ClientState :=
  { s with process := none, isConnected := false, pending := [] }

/-!  ### Event-loop semantics  -/

/-- The events the single-threaded event loop can run on a client. -/
inductive Event where
  | connectCall : Event
  | initTimerFire : Event
  | initCb (i : Nat) : Event
  | send (method : Str) (params : Json) : Event
  | recv (chunk : Str) : Event
  | timeoutFire (t : TimerT) : Event
  | procClose (code : Int) : Event
  | reconnectFire : Event
  | disconnectCall : Event

/-- One event-loop step of the client, parameterized by the semantics of
`JSON.parse` on single lines. -/
inductive Step (parse : Str → Option Json) :
    ClientState → Event → ClientState → Prop where
  | connectCall {s} : Step parse s .connectCall (connectFn s)
  | initTimerFire {s} : s.initTimers ≠ [] →
      Step parse s .initTimerFire (initTimerFn s)
  | initCb {s} (i : Nat) (o : Outcome) : i ∈ s.hsIds → (i, o) ∈ s.settled →
      Step parse s (.initCb i) (initCbFn s i o)
  | send {s} (method : Str) (params : Json) :
      Step parse s (.send method params) (sendRequestFn s method params).2
  | recv {s} (chunk : Str) :
      Step parse s (.recv chunk) (handleDataFn parse s chunk)
  | timeoutFire {s} (t : TimerT) : t ∈ s.timers →
      Step parse s (.timeoutFire t) (timeoutFn s t.rid t.meth)
  | procClose {s} (code : Int) : Step parse s (.procClose code) (closeFn s)
  | reconnectFire {s} : s.scheduledReconnects ≠ [] →
      Step parse s .reconnectFire (reconnectFn s)
  | disconnectCall {s} : Step parse s .disconnectCall (disconnectFn s)

/-- States reachable from the freshly constructed client. -/
inductive Reachable (parse : Str → Option Json) : ClientState → Prop where
  | init : Reachable parse initState
  | step {s e s'} : Reachable parse s → Step parse s e s' → Reachable parse s'

/-- Zero or more event-loop steps. -/
inductive Steps (parse : Str → Option Json) : ClientState → ClientState → Prop where
  | refl {s} : Steps parse s s
  | tail {s t u e} : Steps parse s t → Step parse t e u → Steps parse s u

/-!  ### State invariant  -/

/-- Invariant of reachable client states: pending and settled ids were
allocated by the monotone counter, settlement happens at most once per id,
assigned ids are strictly increasing, the reconnect counter stays within
its bound, and every request timer carries the 60-second delay. -/
def Inv (s : ClientState) : Prop :=
  (∀ i ∈ s.pending, 1 ≤ i ∧ i ≤ s.requestId) ∧
  (settledIds s).Nodup ∧
  (∀ x ∈ s.settled, x.1 ≤ s.requestId ∧ x.1 ∉ s.pending) ∧
  (∀ a ∈ s.assigned, a ≤ s.requestId) ∧
  s.assigned.Pairwise (· < ·) ∧
  s.reconnectAttempts ≤ s.maxReconnectAttempts ∧
  s.maxReconnectAttempts = 3 ∧
  (∀ t ∈ s.timers, t.delayMs = 60000)

/-- A state and message witnessing that the code keys the error check on
JavaScript truthiness: the message carries an `error` field whose value is
`null`. -/
def cex2State : ClientState :=
  { initState with process := some ⟨1, false⟩,
                   isConnected := true,
                   requestId := 1,
                   pending := [1],
                   timers := [⟨1, ['m'], 60000⟩] }

def cex2Msg : Json :=
  .obj [(idKey, .num 1), (errorKey, .null), (resultKey, .num 7)]

def w2State : ClientState :=
  { initState with process := some ⟨1, false⟩,
                   isConnected := true,
                   requestId := 1,
                   pending := [1],
                   timers := [⟨1, ['m'], 60000⟩] }

def w2Msg : Json :=
  .obj [(idKey, .num 1), (errorKey, .obj [(messageKey, .str "boom".toList)])]

/-- A client whose in-flight initialize request 1 has settled with the
result `null` (a legitimate JSON-RPC result shape). -/
def cex9State : ClientState :=
  { initState with process := some ⟨1, false⟩,
                   requestId := 1,
                   hsIds := [1],
                   settled := [(1, .resolved (some Json.null))] }

def w3State : ClientState :=
  { initState with process := some ⟨1, false⟩,
                   requestId := 1,
                   pending := [1],
                   timers := [⟨1, ['m'], 60000⟩] }

def w10State : ClientState :=
  (sendRequestFn (connectFn initState) ['m'] Json.null).2

/-- A connect attempt is in flight after `connect()` from the initial
state: not yet connected, one subprocess spawned. -/
def inflight1 : ClientState := connectFn initState

theorem inv_initState : Inv initState := by
  simp [Inv, initState, settledIds]

theorem pendingLookup_mem {pend : List Nat} {msg : Json} {k : Nat}
    (h : pendingLookup pend msg = some k) : k ∈ pend := by
  unfold pendingLookup at h
  cases hg : jsGet msg idKey with
  | none => simp [hg] at h
  | some v =>
    rw [hg] at h
    by_cases ht : truthy v = true
    · simp only [ht, if_true] at h
      cases v <;> simp at h
      exact List.mem_of_find?_eq_some h
    · simp only [Bool.not_eq_true] at ht
      simp [ht] at h

theorem notin_settledIds {s : ClientState} {k : Nat}
    (h3 : ∀ x ∈ s.settled, x.1 ≤ s.requestId ∧ x.1 ∉ s.pending)
    (hk : k ∈ s.pending) : k ∉ settledIds s := by
  intro hmem
  simp only [settledIds, List.mem_map] at hmem
  obtain ⟨x, hx, hxk⟩ := hmem
  exact (h3 x hx).2 (by rw [hxk]; exact hk)

theorem nodup_fst_append_fresh {l : List (Nat × Outcome)} {k : Nat} {o : Outcome}
    (h : (l.map Prod.fst).Nodup) (hk : k ∉ l.map Prod.fst) :
    ((l ++ [(k, o)]).map Prod.fst).Nodup := by
  simp only [List.map_append, List.map_cons, List.map_nil]
  refine List.Nodup.append h (List.nodup_singleton k) ?_
  intro a ha hb
  simp only [List.mem_cons, List.not_mem_nil, or_false] at hb
  subst hb
  exact hk ha

/-- Settling a pending call `k` (removing it and its timer, appending the
settlement) preserves the invariant. -/
theorem inv_settle {s : ClientState} {k : Nat} {o : Outcome}
    (h : Inv s) (hk : k ∈ s.pending) :
    Inv { s with timers := s.timers.filter (fun t => t.rid ≠ k),
                 pending := s.pending.filter (fun i => i ≠ k),
                 settled := s.settled ++ [(k, o)] } := by
  obtain ⟨h1, h2, h3, h4, h5, h6, h7, h8⟩ := h
  refine ⟨?_, ?_, ?_, h4, h5, h6, h7, ?_⟩
  · intro i hi
    exact h1 i (List.mem_of_mem_filter hi)
  · exact nodup_fst_append_fresh h2 (notin_settledIds h3 hk)
  · intro x hx
    simp only [List.mem_append, List.mem_cons, List.not_mem_nil, or_false] at hx
    rcases hx with hx | hx
    · refine ⟨(h3 x hx).1, fun hmem => (h3 x hx).2 (List.mem_of_mem_filter hmem)⟩
    · subst hx
      refine ⟨(h1 k hk).2, fun hmem => ?_⟩
      simp only [List.mem_filter, decide_eq_true_eq] at hmem
      exact hmem.2 rfl
  · intro t ht
    exact h8 t (List.mem_of_mem_filter ht)

theorem inv_handleMessageFn {s : ClientState} (msg : Json) (h : Inv s) :
    Inv (handleMessageFn s msg) := by
  unfold handleMessageFn
  split
  · rename_i k hl
    have hk : k ∈ s.pending := pendingLookup_mem hl
    split
    · exact inv_settle h hk
    · exact inv_settle h hk
  · split
    · exact h
    · exact h

theorem inv_foldl_handleMessage {msgs : List Json} :
    ∀ {s : ClientState}, Inv s → Inv (msgs.foldl handleMessageFn s) := by
  induction msgs with
  | nil => intro s h; simpa using h
  | cons m ms ih =>
    intro s h
    simpa using ih (inv_handleMessageFn m h)

theorem inv_handleDataFn (parse : Str → Option Json) {s : ClientState}
    (chunk : Str) (h : Inv s) : Inv (handleDataFn parse s chunk) := by
  unfold handleDataFn
  exact inv_foldl_handleMessage h

theorem inv_sendRequestFn {s : ClientState} (method : Str) (params : Json)
    (h : Inv s) : Inv (sendRequestFn s method params).2 := by
  obtain ⟨h1, h2, h3, h4, h5, h6, h7, h8⟩ := h
  unfold sendRequestFn
  split
  · exact ⟨h1, h2, h3, h4, h5, h6, h7, h8⟩
  · split
    · exact ⟨h1, h2, h3, h4, h5, h6, h7, h8⟩
    · refine ⟨?_, ?_, ?_, ?_, ?_, h6, h7, ?_⟩
      · intro i hi
        simp only [List.mem_append, List.mem_cons, List.not_mem_nil, or_false] at hi
        rcases hi with hi | hi
        · exact ⟨(h1 i hi).1, Nat.le_succ_of_le (h1 i hi).2⟩
        · subst hi; exact ⟨Nat.succ_le_succ (Nat.zero_le _), Nat.le_refl _⟩
      · exact h2
      · intro x hx
        refine ⟨Nat.le_succ_of_le (h3 x hx).1, fun hmem => ?_⟩
        simp only [List.mem_append, List.mem_cons, List.not_mem_nil, or_false] at hmem
        rcases hmem with hmem | hmem
        · exact (h3 x hx).2 hmem
        · have := Nat.lt_succ_of_le (h3 x hx).1
          rw [hmem] at this
          exact Nat.lt_irrefl _ this
      · intro a ha
        simp only [List.mem_append, List.mem_cons, List.not_mem_nil, or_false] at ha
        rcases ha with ha | ha
        · exact Nat.le_succ_of_le (h4 a ha)
        · subst ha; exact Nat.le_refl _
      · refine List.pairwise_append.2 ⟨h5, List.pairwise_singleton _ _, ?_⟩
        intro a ha b hb
        simp only [List.mem_cons, List.not_mem_nil, or_false] at hb
        subst hb
        exact Nat.lt_succ_of_le (h4 a ha)
      · intro t ht
        simp only [List.mem_append, List.mem_cons, List.not_mem_nil, or_false] at ht
        rcases ht with ht | ht
        · exact h8 t ht
        · subst ht; rfl

theorem inv_timeoutFn {s : ClientState} (i : Nat) (m : Str) (h : Inv s) :
    Inv (timeoutFn s i m) := by
  unfold timeoutFn
  split
  · rename_i hp
    exact inv_settle h hp
  · obtain ⟨h1, h2, h3, h4, h5, h6, h7, h8⟩ := h
    refine ⟨h1, h2, h3, h4, h5, h6, h7, ?_⟩
    intro t ht
    exact h8 t (List.mem_of_mem_filter ht)

theorem inv_closeFn {s : ClientState} (h : Inv s) : Inv (closeFn s) := by
  obtain ⟨h1, h2, h3, h4, h5, h6, h7, h8⟩ := h
  unfold closeFn
  split
  · rename_i hc
    exact ⟨h1, h2, h3, h4, h5, hc, h7, h8⟩
  · exact ⟨h1, h2, h3, h4, h5, h6, h7, h8⟩

theorem inv_connectFn {s : ClientState} (h : Inv s) : Inv (connectFn s) := by
  obtain ⟨h1, h2, h3, h4, h5, h6, h7, h8⟩ := h
  unfold connectFn
  split
  · exact ⟨h1, h2, h3, h4, h5, h6, h7, h8⟩
  · exact ⟨h1, h2, h3, h4, h5, h6, h7, h8⟩

theorem inv_reconnectFn {s : ClientState} (h : Inv s) : Inv (reconnectFn s) := by
  obtain ⟨h1, h2, h3, h4, h5, h6, h7, h8⟩ := h
  exact inv_connectFn ⟨h1, h2, h3, h4, h5, h6, h7, h8⟩

theorem inv_initTimerFn {s : ClientState} (h : Inv s) : Inv (initTimerFn s) := by
  obtain ⟨h1, h2, h3, h4, h5, h6, h7, h8⟩ := h
  have hbase : Inv { s with initTimers := s.initTimers.tail } :=
    ⟨h1, h2, h3, h4, h5, h6, h7, h8⟩
  have hsend := inv_sendRequestFn initMethod initParams hbase
  unfold initTimerFn
  split
  · rename_i e s1 hr
    rw [hr] at hsend
    exact ⟨hsend.1, hsend.2.1, hsend.2.2.1, hsend.2.2.2.1, hsend.2.2.2.2.1,
      hsend.2.2.2.2.2.1, hsend.2.2.2.2.2.2.1, hsend.2.2.2.2.2.2.2⟩
  · rename_i id s1 hr
    rw [hr] at hsend
    exact ⟨hsend.1, hsend.2.1, hsend.2.2.1, hsend.2.2.2.1, hsend.2.2.2.2.1,
      hsend.2.2.2.2.2.1, hsend.2.2.2.2.2.2.1, hsend.2.2.2.2.2.2.2⟩

theorem inv_initCbFn {s : ClientState} (i : Nat) (o : Outcome) (h : Inv s) :
    Inv (initCbFn s i o) := by
  obtain ⟨h1, h2, h3, h4, h5, h6, h7, h8⟩ := h
  unfold initCbFn
  cases o with
  | rejected e => exact ⟨h1, h2, h3, h4, h5, h6, h7, h8⟩
  | resolved r =>
    cases s.process with
    | none => exact ⟨h1, h2, h3, h4, h5, h6, h7, h8⟩
    | some p =>
      cases r with
      | none => exact ⟨h1, h2, h3, h4, h5, h6, h7, h8⟩
      | some j =>
        cases j <;>
          first
          | exact ⟨h1, h2, h3, h4, h5, h6, h7, h8⟩
          | exact ⟨h1, h2, h3, h4, h5, Nat.zero_le _, h7, h8⟩

theorem inv_disconnectFn {s : ClientState} (h : Inv s) : Inv (disconnectFn s) := by
  obtain ⟨h1, h2, h3, h4, h5, h6, h7, h8⟩ := h
  refine ⟨?_, h2, ?_, h4, h5, h6, h7, h8⟩
  · intro i hi
    simp [disconnectFn] at hi
  · intro x hx
    exact ⟨(h3 x hx).1, by simp [disconnectFn]⟩

theorem inv_step {parse : Str → Option Json} {s s' : ClientState} {e : Event}
    (h : Inv s) (hs : Step parse s e s') : Inv s' := by
  cases hs with
  | connectCall => exact inv_connectFn h
  | initTimerFire _ => exact inv_initTimerFn h
  | initCb i o _ _ => exact inv_initCbFn i o h
  | send method params => exact inv_sendRequestFn method params h
  | recv chunk => exact inv_handleDataFn parse chunk h
  | timeoutFire t _ => exact inv_timeoutFn t.rid t.meth h
  | procClose code => exact inv_closeFn h
  | reconnectFire _ => exact inv_reconnectFn h
  | disconnectCall => exact inv_disconnectFn h

theorem inv_reachable {parse : Str → Option Json} {s : ClientState}
    (h : Reachable parse s) : Inv s := by
  induction h with
  | init => exact inv_initState
  | step _ hs ih => exact inv_step ih hs

/-!  ### Framing lemmas  -/

theorem splitNl_ne_nil : ∀ s : Str, splitNl s ≠ []
  | [] => by simp [splitNl]
  | c :: cs => by
    simp only [splitNl]
    split <;> simp

theorem splitNl_cons_nl (cs : Str) : splitNl (nlChar :: cs) = [] :: splitNl cs := by
  simp [splitNl]

theorem splitNl_cons_other {c : Char} (h : c ≠ nlChar) (cs : Str) :
    splitNl (c :: cs) = (c :: (splitNl cs).headD []) :: (splitNl cs).tail := by
  simp [splitNl, h]

theorem fronts_cons_of_ne_nil {t : List Str} (h : t ≠ []) (a : Str) :
    fronts (a :: t) = a :: fronts t := by
  cases t with
  | nil => exact absurd rfl h
  | cons b t' => rfl

theorem lastPart_cons_of_ne_nil {t : List Str} (h : t ≠ []) (a : Str) :
    lastPart (a :: t) = lastPart t := by
  cases t with
  | nil => exact absurd rfl h
  | cons b t' => rfl

theorem fronts_append_of_ne_nil {ys : List Str} (h : ys ≠ []) :
    ∀ xs : List Str, fronts (xs ++ ys) = xs ++ fronts ys := by
  intro xs
  induction xs with
  | nil => rfl
  | cons a xs ih =>
    have hne : xs ++ ys ≠ [] := by
      cases xs <;> simp [h]
    rw [List.cons_append, fronts_cons_of_ne_nil hne, ih, List.cons_append]

theorem lastPart_append_of_ne_nil {ys : List Str} (h : ys ≠ []) :
    ∀ xs : List Str, lastPart (xs ++ ys) = lastPart ys := by
  intro xs
  induction xs with
  | nil => rfl
  | cons a xs ih =>
    have hne : xs ++ ys ≠ [] := by
      cases xs <;> simp [h]
    rw [List.cons_append, lastPart_cons_of_ne_nil hne, ih]

/-- Splitting distributes over append: the last fragment of the first part
glues onto the first fragment of the second part. -/
theorem splitNl_append : ∀ xs ys : Str,
    splitNl (xs ++ ys) =
      fronts (splitNl xs) ++
        (lastPart (splitNl xs) ++ (splitNl ys).headD []) :: (splitNl ys).tail := by
  intro xs ys
  induction xs with
  | nil =>
    cases hys : splitNl ys with
    | nil => exact absurd hys (splitNl_ne_nil ys)
    | cons a t => simp [splitNl, fronts, lastPart, hys]
  | cons c xs ih =>
    by_cases hc : c = nlChar
    · subst hc
      rw [List.cons_append, splitNl_cons_nl, splitNl_cons_nl, ih]
      have hxs := splitNl_ne_nil xs
      cases hsx : splitNl xs with
      | nil => exact absurd hsx hxs
      | cons p t =>
        cases t with
        | nil => simp [fronts, lastPart]
        | cons q t' => simp [fronts_cons_of_ne_nil, lastPart_cons_of_ne_nil]
    · rw [List.cons_append, splitNl_cons_other hc, splitNl_cons_other hc, ih]
      cases hsx : splitNl xs with
      | nil => exact absurd hsx (splitNl_ne_nil xs)
      | cons p t =>
        cases t with
        | nil => simp [fronts, lastPart]
        | cons q t' => simp [fronts, lastPart_cons_of_ne_nil]

/-- The retained buffer fragment never contains a newline. -/
theorem nl_notin_lastPart_splitNl : ∀ s : Str, nlChar ∉ lastPart (splitNl s) := by
  intro s
  induction s with
  | nil => simp [splitNl, lastPart]
  | cons c cs ih =>
    by_cases hc : c = nlChar
    · subst hc
      rw [splitNl_cons_nl]
      rw [lastPart_cons_of_ne_nil (splitNl_ne_nil cs)]
      exact ih
    · rw [splitNl_cons_other hc]
      cases hsx : splitNl cs with
      | nil => exact absurd hsx (splitNl_ne_nil cs)
      | cons p t =>
        rw [hsx] at ih
        cases t with
        | nil =>
          simp only [List.headD_cons, List.tail_cons, lastPart]
          simp only [lastPart] at ih
          intro hmem
          rcases List.mem_cons.mp hmem with h | h
          · exact hc h.symm
          · exact ih h
        | cons q t' =>
          simp only [List.headD_cons, List.tail_cons]
          rw [lastPart_cons_of_ne_nil (by simp)]
          rw [lastPart_cons_of_ne_nil (by simp)] at ih
          exact ih

/-- Splitting a newline-free string yields that single fragment. -/
theorem splitNl_of_no_nl : ∀ {l : Str}, nlChar ∉ l → splitNl l = [l] := by
  intro l
  induction l with
  | nil => intro _; rfl
  | cons c cs ih =>
    intro h
    have hc : c ≠ nlChar := fun hcc => h (hcc ▸ List.mem_cons_self c cs)
    have hcs : nlChar ∉ cs := fun hm => h (List.mem_cons_of_mem c hm)
    rw [splitNl_cons_other hc, ih hcs]
    rfl

/-- Splitting a newline-terminated line off the front. -/
theorem splitNl_line {l : Str} (h : nlChar ∉ l) (rest : Str) :
    splitNl (l ++ nlChar :: rest) = l :: splitNl rest := by
  induction l with
  | nil => simpa using splitNl_cons_nl rest
  | cons c cs ih =>
    have hc : c ≠ nlChar := fun hcc => h (hcc ▸ List.mem_cons_self c cs)
    have hcs : nlChar ∉ cs := fun hm => h (List.mem_cons_of_mem c hm)
    rw [List.cons_append, splitNl_cons_other hc, ih hcs]
    rfl

/-- Splitting the concatenation of newline-terminated lines recovers
exactly those lines plus an empty trailing fragment. -/
theorem splitNl_flatten_lines : ∀ {lines : List Str},
    (∀ l ∈ lines, nlChar ∉ l) →
    splitNl (lines.map (fun l => l ++ [nlChar])).flatten = lines ++ [[]] := by
  intro lines
  induction lines with
  | nil => intro _; rfl
  | cons l rest ih =>
    intro h
    have hl : nlChar ∉ l := h l (List.mem_cons_self l rest)
    have hrest : ∀ x ∈ rest, nlChar ∉ x := fun x hx => h x (List.mem_cons_of_mem l hx)
    simp only [List.map_cons, List.flatten_cons]
    rw [List.append_assoc, List.singleton_append, splitNl_line hl, ih hrest,
      List.cons_append]

/-- Chunk fusion: feeding any sequence of chunks through successive
`handleData` passes is the same as one pass over their concatenation —
the dispatched messages and the final buffer do not depend on the
chunking. -/
theorem feed_fusion (parse : Str → Option Json) :
    ∀ (cs : List Str) (buf : Str), nlChar ∉ buf →
      feed parse buf cs = handleDataF parse buf cs.flatten := by
  intro cs
  induction cs with
  | nil =>
    intro buf hbuf
    simp [feed, handleDataF, splitNl_of_no_nl hbuf, lastPart, fronts, parseLines]
  | cons c cs ih =>
    intro buf hbuf
    have hb1 : nlChar ∉ (handleDataF parse buf c).1 := by
      simp only [handleDataF]
      exact nl_notin_lastPart_splitNl (buf ++ c)
    have step2 := ih (handleDataF parse buf c).1 hb1
    simp only [feed, step2]
    simp only [handleDataF, List.flatten_cons]
    rw [show buf ++ (c ++ cs.flatten) = (buf ++ c) ++ cs.flatten from
      (List.append_assoc buf c cs.flatten).symm]
    rw [splitNl_append (buf ++ c) cs.flatten]
    rw [splitNl_append (lastPart (splitNl (buf ++ c))) cs.flatten]
    rw [splitNl_of_no_nl (nl_notin_lastPart_splitNl (buf ++ c))]
    have hT : ((lastPart (splitNl (buf ++ c)) ++ (splitNl cs.flatten).headD []) ::
        (splitNl cs.flatten).tail : List Str) ≠ [] := by simp
    rw [lastPart_append_of_ne_nil hT, fronts_append_of_ne_nil hT]
    simp only [fronts, lastPart, List.nil_append]
    simp [parseLines, List.filterMap_append]

theorem parseLines_forall₂ {parse : Str → Option Json} :
    ∀ {lines : List Str} {msgs : List Json},
      List.Forall₂ (fun l m => jsTrim l ≠ [] ∧ parse l = some m) lines msgs →
      parseLines parse lines = msgs := by
  intro lines msgs h
  induction h with
  | nil => rfl
  | cons hm _ ih =>
    obtain ⟨ht, hp⟩ := hm
    simp [parseLines, List.filterMap_cons, ht, hp] at ih ⊢
    exact ih

/-!  ### Claims  -/

/-- C1: Inbound framing is chunking-invariant. For every sequence of inbound
chunks whose concatenation forms N newline-terminated JSON lines (each
newline-free, non-blank after trim, and successfully parsed), feeding the
chunks through successive `handleData` passes from an empty buffer
dispatches exactly those N decoded messages, in order, regardless of how
the bytes are split into chunks; moreover after every `handleData` pass the
accumulating buffer holds at most one incomplete, newline-free fragment. -/
theorem C1_chunking_invariant (parse : Str → Option Json)
    (lines : List Str) (msgs : List Json) (chunks : List Str)
    (hconcat : chunks.flatten = (lines.map (fun l => l ++ [nlChar])).flatten)
    (hnl : ∀ l ∈ lines, nlChar ∉ l)
    (hparse : List.Forall₂ (fun l m => jsTrim l ≠ [] ∧ parse l = some m) lines msgs) :
    (feed parse [] chunks).2 = msgs ∧ msgs.length = lines.length ∧
      ∀ buf chunk : Str, nlChar ∉ (handleDataF parse buf chunk).1 := by
  refine ⟨?_, (List.Forall₂.length_eq hparse).symm, ?_⟩
  · rw [feed_fusion parse chunks [] (by simp), hconcat]
    unfold handleDataF
    rw [List.nil_append, splitNl_flatten_lines hnl]
    show parseLines parse (fronts (lines ++ [[]])) = msgs
    rw [fronts_append_of_ne_nil (by simp) lines]
    simp only [fronts, List.append_nil]
    exact parseLines_forall₂ hparse
  · intro buf chunk
    exact nl_notin_lastPart_splitNl (buf ++ chunk)

theorem C1_witness :
    (feed (fun l => if l = ['a'] then some Json.null else none) []
        [['a'], [nlChar]]).2 = [Json.null] ∧
      ([Json.null] : List Json).length = [(['a'] : Str)].length ∧
      ∀ buf chunk : Str,
        nlChar ∉ (handleDataF (fun l => if l = ['a'] then some Json.null else none)
          buf chunk).1 :=
  C1_chunking_invariant (fun l => if l = ['a'] then some Json.null else none)
    [['a']] [Json.null] [['a'], [nlChar]] (by decide) (by decide)
    (List.Forall₂.cons ⟨by decide, by decide⟩ List.Forall₂.nil)

/-- C5: Malformed-line resilience. A line that fails to parse, arriving
between two well-formed lines, is discarded without affecting the two
well-formed dispatches or the buffer state: the `handleData` pass over the
three newline-terminated lines dispatches exactly the two decoded messages
and leaves an empty buffer. -/
theorem C5_malformed_line (parse : Str → Option Json) (l1 l2 l3 : Str)
    (m1 m3 : Json)
    (hn1 : nlChar ∉ l1) (hn2 : nlChar ∉ l2) (hn3 : nlChar ∉ l3)
    (ht1 : jsTrim l1 ≠ []) (hp1 : parse l1 = some m1)
    (ht2 : jsTrim l2 ≠ []) (hp2 : parse l2 = none)
    (ht3 : jsTrim l3 ≠ []) (hp3 : parse l3 = some m3) :
    handleDataF parse [] (l1 ++ nlChar :: (l2 ++ nlChar :: (l3 ++ [nlChar]))) =
      ([], [m1, m3]) := by
  unfold handleDataF
  rw [List.nil_append]
  rw [splitNl_line hn1, splitNl_line hn2]
  rw [show l3 ++ [nlChar] = l3 ++ nlChar :: [] from rfl, splitNl_line hn3]
  simp [fronts, lastPart, parseLines, List.filterMap_cons, ht1, hp1, ht2, hp2,
    ht3, hp3, splitNl]

theorem C5_witness :
    handleDataF
        (fun l => if l = ['a'] then some (Json.num 1)
                  else if l = ['b'] then some (Json.num 2) else none)
        [] (['a'] ++ nlChar :: (['x'] ++ nlChar :: (['b'] ++ [nlChar]))) =
      ([], [Json.num 1, Json.num 2]) :=
  C5_malformed_line _ ['a'] ['x'] ['b'] (Json.num 1) (Json.num 2)
    (by decide) (by decide) (by decide) (by decide) (by decide) (by decide)
    (by decide) (by decide) (by decide)

/-- C6: Fail-fast precondition of `sendRequest`. Whenever the subprocess
handle is absent or the process is marked killed, `sendRequest` fails
immediately with the "MCP process not running" error and leaves the whole
client state unchanged: nothing is written, no pending call or timer is
registered, no id is allocated, and no reconnect or spawn occurs. -/
theorem C6_fail_fast (s : ClientState) (method : Str) (params : Json)
    (h : s.process = none ∨ ∃ p, s.process = some p ∧ p.killed = true) :
    sendRequestFn s method params = (.error notRunningMsg, s) := by
  unfold sendRequestFn
  rcases h with h | ⟨p, hp, hk⟩
  · rw [h]
  · rw [hp]
    simp [hk]

theorem C6_witness :
    sendRequestFn initState methodKey Json.null = (.error notRunningMsg, initState) :=
  C6_fail_fast initState methodKey Json.null (Or.inl rfl)

theorem find?_int_self {l : List Nat} {i : Nat} (h : i ∈ l) :
    List.find? (fun (k : Nat) => decide ((k : Int) = (i : Int))) l = some i := by
  induction l with
  | nil => cases h
  | cons a t ih =>
    by_cases ha : a = i
    · subst ha
      simp [List.find?_cons]
    · have hne : ¬((a : Int) = (i : Int)) := by exact_mod_cast ha
      rw [List.find?_cons]
      simp only [hne, decide_eq_true_eq, decide_eq_false_iff_not, not_false_iff,
        if_false, Bool.false_eq_true, reduceIte]
      apply ih
      rcases List.mem_cons.mp h with h' | h'
      · exact absurd h'.symm ha
      · exact h'

/-- Equation: `handleMessage` on a message matching pending call `k`. -/
theorem handleMessageFn_some {s : ClientState} {msg : Json} {k : Nat}
    (hl : pendingLookup s.pending msg = some k) :
    handleMessageFn s msg =
      if truthyOpt (jsGet msg errorKey) then
        { s with timers := s.timers.filter (fun t => t.rid ≠ k),
                 pending := s.pending.filter (fun i => i ≠ k),
                 settled := s.settled ++
                   [(k, .rejected (errMsgOf ((jsGet msg errorKey).getD .null)))] }
      else
        { s with timers := s.timers.filter (fun t => t.rid ≠ k),
                 pending := s.pending.filter (fun i => i ≠ k),
                 settled := s.settled ++ [(k, .resolved (jsGet msg resultKey))] } := by
  unfold handleMessageFn
  rw [hl]

/-- Equation: `handleMessage` on a message matching nothing pending. -/
theorem handleMessageFn_nomatch {s : ClientState} {msg : Json}
    (hl : pendingLookup s.pending msg = none) :
    handleMessageFn s msg =
      if truthyOpt (jsGet msg methodKey) then { s with notes := s.notes ++ [msg] }
      else s := by
  unfold handleMessageFn
  rw [hl]

/-- C2 counterexample: the claim says a matching message that carries an
`error` field makes the pending call reject; but the code tests
`if (message.error)`, so a present-but-`null` error field falls through to
the resolve branch — here the message carries `error: null` (the field is
present) and still matches pending call 1, yet the call is resolved with
the `result` value instead of rejected. -/
theorem C2_counterexample :
    jsGet cex2Msg errorKey = some Json.null ∧
    pendingLookup cex2State.pending cex2Msg = some 1 ∧
    (handleMessageFn cex2State cex2Msg).settled =
      [(1, Outcome.resolved (some (Json.num 7)))] := by
  refine ⟨by decide, by decide, by decide⟩

/-- C2 (amended): response dispatch correlates by id. For every parsed
message the code matches against a pending call (truthy numeric `id` that
is a pending key): the call's deadline timer is cancelled, it is removed
from the pending set (leaving all other pending calls untouched, so out of
order responses settle exactly their own call), the call rejects with the
server-supplied message — falling back to the stringified error payload
when the message field is absent or falsy — when the `error` field is
present *and truthy*, and resolves with the `result` field when the
`error` field is absent or falsy; on reachable states every message whose
numeric `id` is a pending key does match; and a message matching nothing
pending with no truthy `method` field is ignored without any state
change. -/
theorem C2_dispatch_by_id (s : ClientState) (msg : Json) :
    (∀ k, pendingLookup s.pending msg = some k →
      (handleMessageFn s msg).timers = s.timers.filter (fun t => t.rid ≠ k) ∧
      (handleMessageFn s msg).pending = s.pending.filter (fun i => i ≠ k) ∧
      (truthyOpt (jsGet msg errorKey) = true →
        (handleMessageFn s msg).settled = s.settled ++
          [(k, .rejected (errMsgOf ((jsGet msg errorKey).getD .null)))]) ∧
      (truthyOpt (jsGet msg errorKey) = false →
        (handleMessageFn s msg).settled = s.settled ++
          [(k, .resolved (jsGet msg resultKey))])) ∧
    (pendingLookup s.pending msg = none →
      truthyOpt (jsGet msg methodKey) = false →
      handleMessageFn s msg = s) ∧
    (∀ i : Nat, Inv s → jsGet msg idKey = some (.num (i : Int)) →
      i ∈ s.pending → pendingLookup s.pending msg = some i) := by
  refine ⟨?_, ?_, ?_⟩
  · intro k hl
    rw [handleMessageFn_some hl]
    by_cases he : truthyOpt (jsGet msg errorKey) = true
    · rw [if_pos he]
      refine ⟨rfl, rfl, fun _ => rfl, fun hf => ?_⟩
      rw [he] at hf
      cases hf
    · rw [if_neg he]
      exact ⟨rfl, rfl, fun ht => absurd ht he, fun _ => rfl⟩
  · intro hl hm
    rw [handleMessageFn_nomatch hl, if_neg]
    rw [hm]
    simp
  · intro i hinv hid hi
    unfold pendingLookup
    rw [hid]
    have h1 : 1 ≤ i := (hinv.1 i hi).1
    have ht : truthy (.num (i : Int)) = true := by
      simp only [truthy, bne_iff_ne, ne_eq]
      intro hc
      have : i = 0 := by exact_mod_cast hc
      omega
    show (if truthy (Json.num (i : Int)) = true then
        List.find? (fun (k : Nat) => decide ((k : Int) = (i : Int))) s.pending
      else none) = some i
    rw [if_pos ht]
    exact find?_int_self hi

theorem C2_witness :
    (handleMessageFn w2State w2Msg).pending = [] ∧
    (handleMessageFn w2State w2Msg).timers = [] ∧
    (handleMessageFn w2State w2Msg).settled =
      [(1, Outcome.rejected "boom".toList)] := by
  have h := (C2_dispatch_by_id w2State w2Msg).1 1 (by decide)
  refine ⟨?_, ?_, ?_⟩
  · rw [h.2.1]; decide
  · rw [h.1]; decide
  · rw [h.2.2.1 (by decide)]; decide

/-!  ### Frame lemmas for the step functions  -/

theorem settledFor_congr {i : Nat} {s s' : ClientState}
    (h : s'.settled = s.settled) : settledFor i s' = settledFor i s := by
  unfold settledFor
  rw [h]

theorem settledFor_append_ne {s s' : ClientState} {k i : Nat} {o : Outcome}
    (hne : k ≠ i) (h : s'.settled = s.settled ++ [(k, o)]) :
    settledFor i s' = settledFor i s := by
  unfold settledFor
  rw [h, List.filter_append]
  simp [hne]

theorem settledFor_nil_of_notin {s : ClientState} {i : Nat}
    (h : i ∉ settledIds s) : settledFor i s = [] := by
  unfold settledFor
  rw [List.filter_eq_nil_iff]
  intro x hx
  simp only [decide_eq_true_eq]
  intro hxi
  exact h (by
    simp only [settledIds, List.mem_map]
    exact ⟨x, hx, hxi⟩)

theorem connectFn_frame (s : ClientState) :
    (connectFn s).requestId = s.requestId ∧ (connectFn s).settled = s.settled ∧
    (connectFn s).pending = s.pending ∧
    (connectFn s).isConnected = s.isConnected ∧
    (connectFn s).timers = s.timers := by
  unfold connectFn
  split
  · exact ⟨rfl, rfl, rfl, rfl, rfl⟩
  · exact ⟨rfl, rfl, rfl, rfl, rfl⟩

theorem closeFn_frame (s : ClientState) :
    (closeFn s).requestId = s.requestId ∧ (closeFn s).settled = s.settled ∧
    (closeFn s).pending = s.pending ∧ (closeFn s).isConnected = false ∧
    (closeFn s).process = none ∧ (closeFn s).timers = s.timers := by
  unfold closeFn
  split
  · exact ⟨rfl, rfl, rfl, rfl, rfl, rfl⟩
  · exact ⟨rfl, rfl, rfl, rfl, rfl, rfl⟩

theorem disconnectFn_frame (s : ClientState) :
    (disconnectFn s).requestId = s.requestId ∧
    (disconnectFn s).settled = s.settled ∧ (disconnectFn s).pending = [] ∧
    (disconnectFn s).isConnected = false ∧ (disconnectFn s).process = none ∧
    (disconnectFn s).timers = s.timers :=
  ⟨rfl, rfl, rfl, rfl, rfl, rfl⟩

theorem timeoutFn_frame (s : ClientState) (i : Nat) (m : Str) :
    (timeoutFn s i m).requestId = s.requestId ∧
    (timeoutFn s i m).isConnected = s.isConnected ∧
    (timeoutFn s i m).assigned = s.assigned := by
  unfold timeoutFn
  split
  · exact ⟨rfl, rfl, rfl⟩
  · exact ⟨rfl, rfl, rfl⟩

theorem initCbFn_frame (s : ClientState) (i : Nat) (o : Outcome) :
    (initCbFn s i o).requestId = s.requestId ∧
    (initCbFn s i o).settled = s.settled ∧
    (initCbFn s i o).pending = s.pending ∧
    (initCbFn s i o).timers = s.timers := by
  unfold initCbFn
  cases o with
  | rejected e => exact ⟨rfl, rfl, rfl, rfl⟩
  | resolved r =>
    cases s.process with
    | none => exact ⟨rfl, rfl, rfl, rfl⟩
    | some p =>
      cases r with
      | none => exact ⟨rfl, rfl, rfl, rfl⟩
      | some j => cases j <;> exact ⟨rfl, rfl, rfl, rfl⟩

theorem handleMessageFn_frame (s : ClientState) (msg : Json) :
    (handleMessageFn s msg).requestId = s.requestId ∧
    (handleMessageFn s msg).isConnected = s.isConnected ∧
    (handleMessageFn s msg).assigned = s.assigned ∧
    (handleMessageFn s msg).buffer = s.buffer := by
  unfold handleMessageFn
  split
  · split
    · exact ⟨rfl, rfl, rfl, rfl⟩
    · exact ⟨rfl, rfl, rfl, rfl⟩
  · split
    · exact ⟨rfl, rfl, rfl, rfl⟩
    · exact ⟨rfl, rfl, rfl, rfl⟩

theorem foldl_handleMessage_frame (msgs : List Json) :
    ∀ s : ClientState,
      (msgs.foldl handleMessageFn s).requestId = s.requestId ∧
      (msgs.foldl handleMessageFn s).isConnected = s.isConnected ∧
      (msgs.foldl handleMessageFn s).assigned = s.assigned := by
  induction msgs with
  | nil => intro s; exact ⟨rfl, rfl, rfl⟩
  | cons m ms ih =>
    intro s
    have h1 := handleMessageFn_frame s m
    have h2 := ih (handleMessageFn s m)
    simp only [List.foldl_cons]
    exact ⟨h2.1.trans h1.1, h2.2.1.trans h1.2.1, h2.2.2.trans h1.2.2.1⟩

theorem handleDataFn_frame (parse : Str → Option Json) (s : ClientState)
    (chunk : Str) :
    (handleDataFn parse s chunk).requestId = s.requestId ∧
    (handleDataFn parse s chunk).isConnected = s.isConnected ∧
    (handleDataFn parse s chunk).assigned = s.assigned := by
  unfold handleDataFn
  exact foldl_handleMessage_frame _ _

/-- `sendRequest` either fails fast leaving the state unchanged, or
allocates the next id and registers the call, its timer, and the write. -/
theorem sendRequestFn_cases (s : ClientState) (method : Str) (params : Json) :
    sendRequestFn s method params = (.error notRunningMsg, s) ∨
    sendRequestFn s method params =
      (.ok (s.requestId + 1),
       { s with requestId := s.requestId + 1,
                timers := s.timers ++ [⟨s.requestId + 1, method, 60000⟩],
                pending := s.pending ++ [s.requestId + 1],
                assigned := s.assigned ++ [s.requestId + 1],
                writes := s.writes ++
                  [requestLine (s.requestId + 1) method params] }) := by
  unfold sendRequestFn
  split
  · left; rfl
  · split
    · left; rfl
    · right; rfl

theorem initTimerFn_facts (s : ClientState) :
    ((initTimerFn s).pending = s.pending ∧
     (initTimerFn s).requestId = s.requestId ∧
     (initTimerFn s).settled = s.settled ∧
     (initTimerFn s).isConnected = s.isConnected) ∨
    ((initTimerFn s).pending = s.pending ++ [s.requestId + 1] ∧
     (initTimerFn s).requestId = s.requestId + 1 ∧
     (initTimerFn s).settled = s.settled ∧
     (initTimerFn s).isConnected = s.isConnected) := by
  unfold initTimerFn
  rcases sendRequestFn_cases { s with initTimers := s.initTimers.tail }
      initMethod initParams with h | h
  · rw [h]
    left
    exact ⟨rfl, rfl, rfl, rfl⟩
  · rw [h]
    right
    exact ⟨rfl, rfl, rfl, rfl⟩

theorem requestId_mono_step {parse : Str → Option Json} {s s' : ClientState}
    {e : Event} (hs : Step parse s e s') : s.requestId ≤ s'.requestId := by
  cases hs with
  | connectCall => rw [(connectFn_frame s).1]
  | initTimerFire _ =>
    rcases initTimerFn_facts s with h | h
    · rw [h.2.1]
    · rw [h.2.1]; exact Nat.le_succ _
  | initCb i o _ _ => rw [(initCbFn_frame s i o).1]
  | send method params =>
    rcases sendRequestFn_cases s method params with h | h
    · rw [h]
    · rw [h]; exact Nat.le_succ _
  | recv chunk => rw [(handleDataFn_frame parse s chunk).1]
  | timeoutFire t _ => rw [(timeoutFn_frame s t.rid t.meth).1]
  | procClose code => rw [(closeFn_frame s).1]
  | reconnectFire _ =>
    unfold reconnectFn
    rw [(connectFn_frame _).1]
  | disconnectCall => rw [(disconnectFn_frame s).1]

/-- C4: Request-id uniqueness. The monotone counter is never decreased or
reset by any event-loop step — in particular not by process exit,
reconnect, or disconnect; every successful `sendRequest` allocates exactly
the incremented counter value and appends it to the assignment history;
and on every reachable state the history of assigned ids is strictly
increasing, hence any two distinct `sendRequest` invocations receive
distinct ids. -/
theorem C4_request_ids (parse : Str → Option Json) :
    (∀ (s s' : ClientState) (e : Event), Step parse s e s' →
      s.requestId ≤ s'.requestId) ∧
    (∀ (s : ClientState) (method : Str) (params : Json) (p : Proc),
      s.process = some p → p.killed = false →
      (sendRequestFn s method params).1 = .ok (s.requestId + 1) ∧
      (sendRequestFn s method params).2.requestId = s.requestId + 1 ∧
      (sendRequestFn s method params).2.assigned =
        s.assigned ++ [s.requestId + 1]) ∧
    (∀ s : ClientState, Reachable parse s → s.assigned.Pairwise (· < ·)) := by
  refine ⟨fun s s' e hs => requestId_mono_step hs, ?_, ?_⟩
  · intro s method params p hp hk
    unfold sendRequestFn
    rw [hp]
    simp [hk]
  · intro s hr
    exact (inv_reachable hr).2.2.2.2.1

theorem C4_witness :
    initState.requestId ≤ (disconnectFn initState).requestId ∧
    (sendRequestFn (connectFn initState) initMethod Json.null).1 =
      .ok ((connectFn initState).requestId + 1) ∧
    initState.assigned.Pairwise (· < ·) := by
  have h := C4_request_ids (fun _ => none)
  refine ⟨h.1 initState (disconnectFn initState) .disconnectCall
    Step.disconnectCall, ?_, h.2.2 initState Reachable.init⟩
  exact (h.2.1 (connectFn initState) initMethod Json.null ⟨1, false⟩
    (by decide) rfl).1

/-- The success branch of the initialize callback: a present process handle
and a non-null resolved result make the client Ready and reset the
reconnect counter. -/
theorem initCbFn_success (s : ClientState) (i : Nat) (j : Json) (p : Proc)
    (hp : s.process = some p) (hj : j ≠ Json.null) :
    initCbFn s i (.resolved (some j)) =
      { s with hsIds := s.hsIds.filter (fun x => x ≠ i),
               writes := s.writes ++ [initializedNotif],
               isConnected := true, reconnectAttempts := 0,
               connectResults := s.connectResults ++ [.ok] } := by
  unfold initCbFn
  rw [hp]
  cases j with
  | null => exact absurd rfl hj
  | bool b => rfl
  | num n => rfl
  | str s => rfl
  | arr xs => rfl
  | obj fs => rfl

/-- C7: Bounded auto-reconnect. Every subprocess exit resets the state to
disconnected and clears the handle; while the attempt counter is below its
maximum exactly one reconnect with the 2000 ms backoff is scheduled and
the counter incremented, and once it has reached the maximum nothing
further is scheduled; a successful connect (initialize callback completing
with a usable result) sets `isConnected` and resets the counter to zero;
and on every reachable state the counter never exceeds the maximum,
which is 3. -/
theorem C7_bounded_reconnect (parse : Str → Option Json) :
    (∀ s : ClientState,
      (closeFn s).isConnected = false ∧ (closeFn s).process = none ∧
      (s.reconnectAttempts < s.maxReconnectAttempts →
        (closeFn s).scheduledReconnects = s.scheduledReconnects ++ [2000] ∧
        (closeFn s).reconnectAttempts = s.reconnectAttempts + 1) ∧
      (¬ s.reconnectAttempts < s.maxReconnectAttempts →
        (closeFn s).scheduledReconnects = s.scheduledReconnects ∧
        (closeFn s).reconnectAttempts = s.reconnectAttempts)) ∧
    (∀ (s : ClientState) (i : Nat) (j : Json) (p : Proc),
      s.process = some p → j ≠ Json.null →
      (initCbFn s i (.resolved (some j))).isConnected = true ∧
      (initCbFn s i (.resolved (some j))).reconnectAttempts = 0) ∧
    (∀ s : ClientState, Reachable parse s →
      s.reconnectAttempts ≤ s.maxReconnectAttempts ∧
      s.maxReconnectAttempts = 3) := by
  refine ⟨?_, ?_, ?_⟩
  · intro s
    unfold closeFn
    by_cases hc : s.reconnectAttempts < s.maxReconnectAttempts
    · rw [if_pos hc]
      exact ⟨rfl, rfl, fun _ => ⟨rfl, rfl⟩, fun h => absurd hc h⟩
    · rw [if_neg hc]
      exact ⟨rfl, rfl, fun h => absurd h hc, fun _ => ⟨rfl, rfl⟩⟩
  · intro s i j p hp hj
    rw [initCbFn_success s i j p hp hj]
    exact ⟨rfl, rfl⟩
  · intro s hr
    exact ⟨(inv_reachable hr).2.2.2.2.2.1, (inv_reachable hr).2.2.2.2.2.2.1⟩

theorem C7_witness :
    (closeFn initState).isConnected = false ∧
    (closeFn initState).process = none ∧
    (closeFn initState).scheduledReconnects = [2000] ∧
    (closeFn initState).reconnectAttempts = 1 ∧
    (initCbFn (connectFn initState) 1 (.resolved (some (Json.obj [])))).isConnected
      = true ∧
    initState.reconnectAttempts ≤ initState.maxReconnectAttempts := by
  have h := C7_bounded_reconnect (fun _ => none)
  have h1 := h.1 initState
  have h2 := (h1.2.2.1 (by decide))
  have h3 := h.2.1 (connectFn initState) 1 (Json.obj []) ⟨1, false⟩ (by decide)
    (by simp)
  exact ⟨h1.1, h1.2.1, h2.1, h2.2, h3.1,
    (h.2.2 initState Reachable.init).1⟩

/-- C8 (code bug): re-entrant connect is NOT guarded. `connect()` checks
only `this.isConnected`, which becomes true no earlier than the initialize
callback; so a second `connect()` issued while the first attempt is still
in flight passes the guard, spawns a second subprocess, and overwrites
`this.process` with the new handle — two live subprocesses exist, contrary
to the claim that re-entrant connect is a no-op or returns the in-flight
promise. -/
theorem C8_reentrant_connect_spawns_twice :
    initState.isConnected = false ∧
    inflight1.isConnected = false ∧
    inflight1.spawns = 1 ∧
    inflight1.process = some ⟨1, false⟩ ∧
    (connectFn inflight1).spawns = 2 ∧
    (connectFn inflight1).process = some ⟨2, false⟩ := by
  refine ⟨rfl, ?_, ?_, ?_, ?_, ?_⟩ <;> decide

theorem sendRequestFn_frame (s : ClientState) (method : Str) (params : Json) :
    (sendRequestFn s method params).2.isConnected = s.isConnected ∧
    (sendRequestFn s method params).2.settled = s.settled := by
  unfold sendRequestFn
  split
  · exact ⟨rfl, rfl⟩
  · split
    · exact ⟨rfl, rfl⟩
    · exact ⟨rfl, rfl⟩

/-- The initialize callback either leaves `isConnected` unchanged (failure
paths) or is the full success record. -/
theorem initCbFn_isConnected_cases (s : ClientState) (i : Nat) (o : Outcome) :
    (initCbFn s i o).isConnected = s.isConnected ∨
    ∃ p j, s.process = some p ∧ o = .resolved (some j) ∧ j ≠ Json.null ∧
      initCbFn s i o =
        { s with hsIds := s.hsIds.filter (fun x => x ≠ i),
                 writes := s.writes ++ [initializedNotif],
                 isConnected := true, reconnectAttempts := 0,
                 connectResults := s.connectResults ++ [.ok] } := by
  unfold initCbFn
  cases o with
  | rejected e => left; rfl
  | resolved r =>
    cases hp : s.process with
    | none => left; rfl
    | some p =>
      cases r with
      | none => left; rfl
      | some j =>
        cases j with
        | null => left; rfl
        | bool b => right; exact ⟨p, .bool b, rfl, rfl, by simp, rfl⟩
        | num n => right; exact ⟨p, .num n, rfl, rfl, by simp, rfl⟩
        | str t => right; exact ⟨p, .str t, rfl, rfl, by simp, rfl⟩
        | arr xs => right; exact ⟨p, .arr xs, rfl, rfl, by simp, rfl⟩
        | obj fs => right; exact ⟨p, .obj fs, rfl, rfl, by simp, rfl⟩

/-- C9 counterexample: the claim says completion is tolerated for a
handshake result of any shape; but for the result `null` the logging
access `result.serverInfo` throws a TypeError inside `initialize` (after
the `initialized` notification has already been written), so `connect()`
rejects and the state stays disconnected instead of becoming Ready. -/
theorem C9_counterexample :
    (initCbFn cex9State 1 (.resolved (some Json.null))).isConnected = false ∧
    (initCbFn cex9State 1 (.resolved (some Json.null))).connectResults =
      [ConnectResult.failed typeErrMsg] ∧
    (initCbFn cex9State 1 (.resolved (some Json.null))).writes =
      [initializedNotif] := by
  refine ⟨?_, ?_, ?_⟩ <;> decide

/-- C9 (amended): handshake gating. The connect operation resolves and the
state becomes Ready only through the initialize callback, after the
initialize request's result has been received; in that step the id-less
`initialized` notification is written without registering any pending call
or timer. A handshake rejection (timeout or explicit error) rejects
`connect()` without writing the notification and leaves the state
disconnected. The completion is tolerated for every result shape except a
`null` or absent result: there the `result.serverInfo` logging access
throws — after the notification was already written — so `connect()`
rejects and the state stays disconnected. -/
theorem C9_handshake_gating (parse : Str → Option Json) :
    (∀ (s s' : ClientState) (e : Event), Step parse s e s' →
      s.isConnected = false → s'.isConnected = true →
      ∃ i j, e = .initCb i ∧ i ∈ s.hsIds ∧
        (i, Outcome.resolved (some j)) ∈ s.settled ∧ j ≠ Json.null ∧
        s'.writes = s.writes ++ [initializedNotif] ∧
        s'.pending = s.pending ∧ s'.timers = s.timers ∧
        s'.connectResults = s.connectResults ++ [.ok]) ∧
    (∀ (s : ClientState) (i : Nat) (em : Str), s.isConnected = false →
      (initCbFn s i (.rejected em)).isConnected = false ∧
      (initCbFn s i (.rejected em)).connectResults =
        s.connectResults ++ [.failed em] ∧
      (initCbFn s i (.rejected em)).writes = s.writes) ∧
    (∀ (s : ClientState) (i : Nat) (r : Option Json) (p : Proc),
      s.process = some p → s.isConnected = false →
      (r = none ∨ r = some Json.null) →
      (initCbFn s i (.resolved r)).isConnected = false ∧
      (initCbFn s i (.resolved r)).connectResults =
        s.connectResults ++ [.failed typeErrMsg] ∧
      (initCbFn s i (.resolved r)).writes = s.writes ++ [initializedNotif]) ∧
    (∀ (s : ClientState) (i : Nat) (j : Json) (p : Proc),
      s.process = some p → j ≠ Json.null →
      (initCbFn s i (.resolved (some j))).isConnected = true ∧
      (initCbFn s i (.resolved (some j))).writes =
        s.writes ++ [initializedNotif] ∧
      (initCbFn s i (.resolved (some j))).pending = s.pending ∧
      (initCbFn s i (.resolved (some j))).timers = s.timers ∧
      (initCbFn s i (.resolved (some j))).connectResults =
        s.connectResults ++ [.ok]) := by
  refine ⟨?_, ?_, ?_, ?_⟩
  · intro s s' e hs h0 h1
    cases hs with
    | connectCall =>
      rw [(connectFn_frame s).2.2.2.1, h0] at h1
      exact absurd h1 Bool.false_ne_true
    | initTimerFire _ =>
      rcases initTimerFn_facts s with h | h <;>
      · rw [h.2.2.2, h0] at h1
        exact absurd h1 Bool.false_ne_true
    | initCb i o hi hset =>
      rcases initCbFn_isConnected_cases s i o with h | ⟨p, j, hp, ho, hj, heq⟩
      · rw [h, h0] at h1
        exact absurd h1 Bool.false_ne_true
      · subst ho
        exact ⟨i, j, rfl, hi, hset, hj, by rw [heq], by rw [heq], by rw [heq],
          by rw [heq]⟩
    | send method params =>
      rw [(sendRequestFn_frame s method params).1, h0] at h1
      exact absurd h1 Bool.false_ne_true
    | recv chunk =>
      rw [(handleDataFn_frame parse s chunk).2.1, h0] at h1
      exact absurd h1 Bool.false_ne_true
    | timeoutFire t _ =>
      rw [(timeoutFn_frame s t.rid t.meth).2.1, h0] at h1
      exact absurd h1 Bool.false_ne_true
    | procClose code =>
      rw [(closeFn_frame s).2.2.2.1] at h1
      exact absurd h1 Bool.false_ne_true
    | reconnectFire _ =>
      have hx : (reconnectFn s).isConnected = s.isConnected :=
        ((connectFn_frame
          { s with scheduledReconnects := s.scheduledReconnects.tail }).2.2.2.1).trans
          rfl
      rw [hx, h0] at h1
      exact absurd h1 Bool.false_ne_true
    | disconnectCall =>
      rw [(disconnectFn_frame s).2.2.2.1] at h1
      exact absurd h1 Bool.false_ne_true
  · intro s i em h0
    exact ⟨h0, rfl, rfl⟩
  · intro s i r p hp h0 hr
    unfold initCbFn
    rw [hp]
    rcases hr with rfl | rfl
    · exact ⟨h0, rfl, rfl⟩
    · exact ⟨h0, rfl, rfl⟩
  · intro s i j p hp hj
    rw [initCbFn_success s i j p hp hj]
    exact ⟨rfl, rfl, rfl, rfl, rfl⟩

theorem C9_witness :
    (initCbFn (connectFn initState) 1 (.resolved (some (Json.str [])))).isConnected
      = true ∧
    (initCbFn cex9State 2 (.rejected typeErrMsg)).isConnected = false ∧
    (initCbFn cex9State 2 (.resolved (some Json.null))).writes =
      cex9State.writes ++ [initializedNotif] := by
  have h := C9_handshake_gating (fun _ => none)
  refine ⟨?_, ?_, ?_⟩
  · exact (h.2.2.2 (connectFn initState) 1 (Json.str []) ⟨1, false⟩ (by decide)
      (by simp)).1
  · exact (h.2.1 cex9State 2 typeErrMsg (by decide)).1
  · exact (h.2.2.1 cex9State 2 (some Json.null) ⟨1, false⟩ (by decide) (by decide)
      (Or.inr rfl)).2.2

theorem settled_unchanged_step {parse : Str → Option Json}
    {s s' : ClientState} {e : Event} (hs : Step parse s e s') :
    s'.settled = s.settled ∨ (∃ t, e = .timeoutFire t) ∨ ∃ c, e = .recv c := by
  cases hs with
  | connectCall => exact Or.inl (connectFn_frame s).2.1
  | initTimerFire _ =>
    rcases initTimerFn_facts s with h | h
    · exact Or.inl h.2.2.1
    · exact Or.inl h.2.2.1
  | initCb i o _ _ => exact Or.inl (initCbFn_frame s i o).2.1
  | send method params => exact Or.inl (sendRequestFn_frame s method params).2
  | recv chunk => exact Or.inr (Or.inr ⟨chunk, rfl⟩)
  | timeoutFire t _ => exact Or.inr (Or.inl ⟨t, rfl⟩)
  | procClose code => exact Or.inl (closeFn_frame s).2.1
  | reconnectFire _ =>
    exact Or.inl (((connectFn_frame
      { s with scheduledReconnects := s.scheduledReconnects.tail }).2.1).trans rfl)
  | disconnectCall => exact Or.inl (disconnectFn_frame s).2.1

/-- C3: Each pending call settles exactly once, via dispatch or via the
60-second timeout, never both. On every reachable state the settlement log
has no duplicate ids and every settled id is no longer pending; a timer
firing while its id is still pending removes the entry and rejects with
the timeout error naming the method; a timer firing after its id left the
pending set settles nothing; a message matching nothing pending settles
nothing and leaves the pending set unchanged (late responses are ignored);
settlements can only ever happen in a timer-fire or data-arrival step; and
each successful `sendRequest` registers the pending entry together with
its 60000 ms deadline timer. -/
theorem C3_settles_once (parse : Str → Option Json) :
    (∀ s : ClientState, Reachable parse s → (settledIds s).Nodup ∧
      (∀ i ∈ settledIds s, i ∉ s.pending) ∧
      ∀ t ∈ s.timers, t.delayMs = 60000) ∧
    (∀ (s : ClientState) (i : Nat) (m : Str), i ∈ s.pending →
      (timeoutFn s i m).settled = s.settled ++ [(i, .rejected (timeoutMsg m))] ∧
      i ∉ (timeoutFn s i m).pending) ∧
    (∀ (s : ClientState) (i : Nat) (m : Str), i ∉ s.pending →
      (timeoutFn s i m).settled = s.settled) ∧
    (∀ (s : ClientState) (msg : Json), pendingLookup s.pending msg = none →
      (handleMessageFn s msg).settled = s.settled ∧
      (handleMessageFn s msg).pending = s.pending) ∧
    (∀ (s s' : ClientState) (e : Event), Step parse s e s' →
      s'.settled = s.settled ∨ (∃ t, e = .timeoutFire t) ∨ ∃ c, e = .recv c) ∧
    (∀ (s : ClientState) (method : Str) (params : Json) (p : Proc),
      s.process = some p → p.killed = false →
      (sendRequestFn s method params).2.pending = s.pending ++ [s.requestId + 1] ∧
      (sendRequestFn s method params).2.timers =
        s.timers ++ [⟨s.requestId + 1, method, 60000⟩]) := by
  refine ⟨?_, ?_, ?_, ?_, ?_, ?_⟩
  · intro s hr
    have hinv := inv_reachable hr
    refine ⟨hinv.2.1, ?_, hinv.2.2.2.2.2.2.2⟩
    intro i hi
    simp only [settledIds, List.mem_map] at hi
    obtain ⟨x, hx, hxi⟩ := hi
    intro hmem
    exact (hinv.2.2.1 x hx).2 (by rw [hxi]; exact hmem)
  · intro s i m hp
    unfold timeoutFn
    rw [if_pos hp]
    refine ⟨rfl, fun hmem => ?_⟩
    simp only [List.mem_filter, decide_eq_true_eq] at hmem
    exact hmem.2 rfl
  · intro s i m hp
    unfold timeoutFn
    rw [if_neg hp]
  · intro s msg hl
    rw [handleMessageFn_nomatch hl]
    by_cases hm : truthyOpt (jsGet msg methodKey) = true
    · rw [if_pos hm]
      exact ⟨rfl, rfl⟩
    · rw [if_neg hm]
      exact ⟨rfl, rfl⟩
  · intro s s' e hs
    exact settled_unchanged_step hs
  · intro s method params p hp hk
    unfold sendRequestFn
    rw [hp]
    simp [hk]

theorem C3_witness :
    (timeoutFn w3State 1 ['m']).settled =
      w3State.settled ++ [(1, .rejected (timeoutMsg ['m']))] ∧
    1 ∉ (timeoutFn w3State 1 ['m']).pending ∧
    (timeoutFn initState 5 ['m']).settled = initState.settled ∧
    (settledIds initState).Nodup := by
  have h := C3_settles_once (fun _ => none)
  have h2 := h.2.1 w3State 1 ['m'] (by decide)
  exact ⟨h2.1, h2.2, h.2.2.1 initState 5 ['m'] (by decide),
    (h.1 initState Reachable.init).1⟩

/-!  ### Orphaned pending calls after disconnect (C10)  -/

theorem orphan_handleMessageFn {s : ClientState} {msg : Json} {i : Nat}
    (hi : i ∉ s.pending) :
    i ∉ (handleMessageFn s msg).pending ∧
    settledFor i (handleMessageFn s msg) = settledFor i s := by
  cases hl : pendingLookup s.pending msg with
  | some k =>
    have hk := pendingLookup_mem hl
    have hki : k ≠ i := fun h => hi (h ▸ hk)
    rw [handleMessageFn_some hl]
    by_cases he : truthyOpt (jsGet msg errorKey) = true
    · rw [if_pos he]
      exact ⟨fun hmem => hi (List.mem_of_mem_filter hmem),
        settledFor_append_ne hki rfl⟩
    · rw [if_neg he]
      exact ⟨fun hmem => hi (List.mem_of_mem_filter hmem),
        settledFor_append_ne hki rfl⟩
  | none =>
    rw [handleMessageFn_nomatch hl]
    by_cases hm : truthyOpt (jsGet msg methodKey) = true
    · rw [if_pos hm]
      exact ⟨hi, rfl⟩
    · rw [if_neg hm]
      exact ⟨hi, rfl⟩

theorem orphan_foldl {i : Nat} (msgs : List Json) :
    ∀ s : ClientState, i ∉ s.pending →
      i ∉ (msgs.foldl handleMessageFn s).pending ∧
      settledFor i (msgs.foldl handleMessageFn s) = settledFor i s := by
  induction msgs with
  | nil => intro s hi; exact ⟨hi, rfl⟩
  | cons m ms ih =>
    intro s hi
    have h1 := @orphan_handleMessageFn s m _ hi
    have h2 := ih (handleMessageFn s m) h1.1
    simp only [List.foldl_cons]
    exact ⟨h2.1, h2.2.trans h1.2⟩

theorem orphan_step {parse : Str → Option Json} {i : Nat}
    {s s' : ClientState} {e : Event} (hs : Step parse s e s')
    (h1 : i ∉ s.pending) (h2 : i ≤ s.requestId) (h3 : settledFor i s = []) :
    i ∉ s'.pending ∧ i ≤ s'.requestId ∧ settledFor i s' = [] := by
  cases hs with
  | connectCall =>
    refine ⟨?_, ?_, ?_⟩
    · rw [(connectFn_frame s).2.2.1]; exact h1
    · rw [(connectFn_frame s).1]; exact h2
    · rw [settledFor_congr (connectFn_frame s).2.1]; exact h3
  | initTimerFire _ =>
    rcases initTimerFn_facts s with h | h
    · rw [h.1, h.2.1, settledFor_congr h.2.2.1]
      exact ⟨h1, h2, h3⟩
    · refine ⟨?_, ?_, ?_⟩
      · rw [h.1]
        intro hmem
        rcases List.mem_append.mp hmem with hm | hm
        · exact h1 hm
        · simp only [List.mem_cons, List.not_mem_nil, or_false] at hm
          omega
      · rw [h.2.1]; omega
      · rw [settledFor_congr h.2.2.1]; exact h3
  | initCb i' o _ _ =>
    refine ⟨?_, ?_, ?_⟩
    · rw [(initCbFn_frame s i' o).2.2.1]; exact h1
    · rw [(initCbFn_frame s i' o).1]; exact h2
    · rw [settledFor_congr (initCbFn_frame s i' o).2.1]; exact h3
  | send method params =>
    rcases sendRequestFn_cases s method params with h | h
    · rw [h]
      exact ⟨h1, h2, h3⟩
    · rw [h]
      refine ⟨?_, ?_, ?_⟩
      · intro hmem
        rcases List.mem_append.mp hmem with hm | hm
        · exact h1 hm
        · simp only [List.mem_cons, List.not_mem_nil, or_false] at hm
          omega
      · show i ≤ s.requestId + 1
        omega
      · exact h3
  | recv chunk =>
    have hfold := @orphan_foldl i
      (parseLines parse (fronts (splitNl (s.buffer ++ chunk))))
      { s with buffer := lastPart (splitNl (s.buffer ++ chunk)) } h1
    refine ⟨hfold.1, ?_, hfold.2.trans h3⟩
    rw [(handleDataFn_frame parse s chunk).1]
    exact h2
  | timeoutFire t _ =>
    unfold timeoutFn
    by_cases hp : t.rid ∈ s.pending
    · rw [if_pos hp]
      have hti : t.rid ≠ i := fun h => h1 (h ▸ hp)
      exact ⟨fun hmem => h1 (List.mem_of_mem_filter hmem), h2,
        (settledFor_append_ne hti rfl).trans h3⟩
    · rw [if_neg hp]
      exact ⟨h1, h2, h3⟩
  | procClose code =>
    refine ⟨?_, ?_, ?_⟩
    · rw [(closeFn_frame s).2.2.1]; exact h1
    · rw [(closeFn_frame s).1]; exact h2
    · rw [settledFor_congr (closeFn_frame s).2.1]; exact h3
  | reconnectFire _ =>
    have hpe : (reconnectFn s).pending = s.pending :=
      ((connectFn_frame
        { s with scheduledReconnects := s.scheduledReconnects.tail }).2.2.1).trans
        rfl
    have hrid : (reconnectFn s).requestId = s.requestId :=
      ((connectFn_frame
        { s with scheduledReconnects := s.scheduledReconnects.tail }).1).trans rfl
    have hset : (reconnectFn s).settled = s.settled :=
      ((connectFn_frame
        { s with scheduledReconnects := s.scheduledReconnects.tail }).2.1).trans
        rfl
    refine ⟨?_, ?_, ?_⟩
    · rw [hpe]; exact h1
    · rw [hrid]; exact h2
    · rw [settledFor_congr hset]; exact h3
  | disconnectCall =>
    exact ⟨List.not_mem_nil i, h2, h3⟩

theorem orphan_steps {parse : Str → Option Json} {i : Nat}
    {s t : ClientState} (hs : Steps parse s t)
    (h1 : i ∉ s.pending) (h2 : i ≤ s.requestId) (h3 : settledFor i s = []) :
    i ∉ t.pending ∧ i ≤ t.requestId ∧ settledFor i t = [] := by
  induction hs with
  | refl => exact ⟨h1, h2, h3⟩
  | tail _ hstep ih => exact orphan_step hstep ih.1 ih.2.1 ih.2.2

/-- C10: After `disconnect()`, a call that was pending never settles.
Disconnect kills the process and clears the handle, sets the connected
flag false, clears the pending map without settling its promises, and
leaves the deadline timers uncancelled; a still-armed timer that later
fires finds its id absent from the (now empty) pending map and settles
nothing; and along every sequence of further event-loop steps the orphaned
id is never settled — its promise is neither resolved nor rejected. -/
theorem C10_disconnect_never_settles (parse : Str → Option Json)
    (s : ClientState) (i : Nat) (hr : Reachable parse s) (hi : i ∈ s.pending) :
    (disconnectFn s).process = none ∧ (disconnectFn s).isConnected = false ∧
    (disconnectFn s).pending = [] ∧ (disconnectFn s).timers = s.timers ∧
    (disconnectFn s).settled = s.settled ∧
    (∀ m : Str,
      (timeoutFn (disconnectFn s) i m).settled = (disconnectFn s).settled) ∧
    settledFor i s = [] ∧
    (∀ t : ClientState, Steps parse (disconnectFn s) t →
      settledFor i t = []) := by
  have hinv := inv_reachable hr
  have hle : i ≤ s.requestId := (hinv.1 i hi).2
  have h3 : settledFor i s = [] :=
    settledFor_nil_of_notin (notin_settledIds hinv.2.2.1 hi)
  refine ⟨rfl, rfl, rfl, rfl, rfl, ?_, h3, ?_⟩
  · intro m
    unfold timeoutFn
    rw [if_neg (show i ∉ (disconnectFn s).pending from List.not_mem_nil i)]
  · intro t hsteps
    exact (orphan_steps hsteps (List.not_mem_nil i) hle h3).2.2

theorem w10_reachable : Reachable (fun _ => none) w10State :=
  Reachable.step (Reachable.step Reachable.init Step.connectCall)
    (Step.send ['m'] Json.null)

theorem C10_witness :
    (disconnectFn w10State).pending = [] ∧
    (disconnectFn w10State).timers = w10State.timers ∧
    settledFor 1 (disconnectFn w10State) = [] := by
  have h := C10_disconnect_never_settles (fun _ => none) w10State 1
    w10_reachable (by decide)
  exact ⟨h.2.2.1, h.2.2.2.1,
    h.2.2.2.2.2.2.2 (disconnectFn w10State) Steps.refl⟩

end MCP
